import Mathlib

/-!
Verification of the columnar segment serializer
(`src/columnar/src/writer/serializer.rs`).

Bytes are modelled as `Nat` values; byte buffers and streams as `List Nat`.
Stateful Rust code is embedded as explicit state passing on a
`ColumnarSerializer` record.  The `Drop` implementation of the column
handle is embedded as the single end-of-life transition
`ColumnSerializer.drop`; the fatal (process-abort) path of
`insert_cannot_fail` is modelled as the `none` result of an `Option`,
distinct from any recoverable error channel.
-/

namespace TantivyColumnar

/-- Modelled from the spec: `column_type_header.rs` (the definition of
`ColumnType`) is not under `src/`.  The spec describes it as an
"enum over supported value types (e.g. Bytes, numeric, boolean, …)". -/
inductive ColumnType where
  | Bytes
  | Numerical
  | Boolean
deriving DecidableEq, Repr

/-- Modelled from the spec: `Cardinality` is not under `src/`.  The spec
gives "enum {Required, Optional, Multivalued}". -/
inductive Cardinality where
  | Required
  | Optional
  | Multivalued
deriving DecidableEq, Repr

/-- Modelled from the spec: the `(type, cardinality)` pair, "bijectively
encodable to/from a single byte code" (spec §3). -/
structure ColumnTypeAndCardinality where
  typ : ColumnType
  cardinality : Cardinality
deriving DecidableEq, Repr

def ColumnType.to_code : ColumnType → Nat
  | .Bytes => 0
  | .Numerical => 1
  | .Boolean => 2

def Cardinality.to_code : Cardinality → Nat
  | .Required => 0
  | .Optional => 1
  | .Multivalued => 2

/-- Modelled from the spec: a total, reversible one-byte code for the
pair (spec §3: "every valid `(type, cardinality)` pair has exactly one
code, and every code used in the format decodes to exactly one pair"). -/
def ColumnTypeAndCardinality.to_code (c : ColumnTypeAndCardinality) : Nat :=
  c.typ.to_code * 4 + c.cardinality.to_code

def ColumnType.from_code : Nat → Option ColumnType
  | 0 => some .Bytes
  | 1 => some .Numerical
  | 2 => some .Boolean
  | _ => none

def Cardinality.from_code : Nat → Option Cardinality
  | 0 => some .Required
  | 1 => some .Optional
  | 2 => some .Multivalued
  | _ => none

/-- Modelled from the spec: the inverse of the one-byte code. -/
def ColumnTypeAndCardinality.from_code (code : Nat) : Option ColumnTypeAndCardinality :=
  match ColumnType.from_code (code / 4), Cardinality.from_code (code % 4) with
  | some t, some c => some ⟨t, c⟩
  | _, _ => none

/-- Embeds `prepare_key` from `serializer.rs`: clear the buffer, extend
it with the name bytes, push the `0` separator, push the pair code. -/
def prepare_key (key : List Nat) (column_type_cardinality : ColumnTypeAndCardinality)
    (buffer : List Nat) : List Nat :=
  let b := buffer.take 0
  let b := b ++ key
  let b := b ++ [0]
  b ++ [column_type_cardinality.to_code]

/-- Modelled from the spec: `common::CountingWriter` is not under `src/`.
The spec calls it the "byte-counting stream wrapper" whose
"total-bytes-written counter" yields all offsets; written bytes are
appended to the wrapped sink and counted. -/
structure CountingWriter where
  underlying : List Nat
  written_bytes : Nat
deriving DecidableEq, Repr

def CountingWriter.wrap (w : List Nat) : CountingWriter :=
  { underlying := w, written_bytes := 0 }

def CountingWriter.write_all (cw : CountingWriter) (buf : List Nat) : CountingWriter :=
  { underlying := cw.underlying ++ buf, written_bytes := cw.written_bytes + buf.length }

def CountingWriter.flush (cw : CountingWriter) : CountingWriter :=
  cw

/-- Strict lexicographic comparison on byte strings. -/
def lexLt : List Nat → List Nat → Bool
  | [], [] => false
  | [], _ :: _ => true
  | _ :: _, [] => false
  | a :: as, b :: bs => a < b || (a == b && lexLt as bs)

/-- Modelled from the spec: the sorted dictionary builder (the `sstable`
crate's `Writer` with `RangeValueWriter`) is not under `src/`.  Per spec
§4.1/§6 it is an ordered key→range store whose `insert` "must accept
monotonically increasing keys"; it records entries in insertion order. -/
structure IndexBuilder where
  entries : List (List Nat × (Nat × Nat))
deriving DecidableEq, Repr

def IndexBuilder.lastKey (b : IndexBuilder) : Option (List Nat) :=
  b.entries.getLast?.map Prod.fst

/-- Modelled from the spec: "insertion of a key not greater than the
previous one is a logic error … and must abort the process or assert,
never silently corrupt the index" (spec §4.1).  The fatal abort is the
`none` result; there is no recoverable error channel. -/
def IndexBuilder.insert_cannot_fail (b : IndexBuilder) (key : List Nat)
    (byte_range : Nat × Nat) : Option IndexBuilder :=
  match b.lastKey with
  | none => some { entries := b.entries ++ [(key, byte_range)] }
  | some k =>
    if lexLt k key then some { entries := b.entries ++ [(key, byte_range)] } else none

/-- Embeds the `ColumnarSerializer` struct of `serializer.rs`. -/
structure ColumnarSerializer where
  wrt : CountingWriter
  sstable_range : IndexBuilder
  prepare_key_buffer : List Nat
deriving DecidableEq, Repr

/-- Embeds `ColumnarSerializer::new`: wrap the sink with a counting
writer, fresh index builder, empty key buffer. -/
def ColumnarSerializer.new (w : List Nat) : ColumnarSerializer :=
  { wrt := CountingWriter.wrap w
    sstable_range := { entries := [] }
    prepare_key_buffer := [] }

/-- Embeds the `ColumnSerializer` handle: it captures only the start
offset; all other state stays in the borrowed `ColumnarSerializer`. -/
structure ColumnSerializer where
  start_offset : Nat
deriving DecidableEq, Repr

/-- Embeds `ColumnarSerializer::serialize_column`: read the current
counter as the start offset, encode the key into the reused buffer,
return the handle.  No bytes are written. -/
def ColumnarSerializer.serialize_column (s : ColumnarSerializer) (column_name : List Nat)
    (column_type_cardinality : ColumnTypeAndCardinality) :
    ColumnarSerializer × ColumnSerializer :=
  let start_offset := s.wrt.written_bytes
  ({ s with
      prepare_key_buffer :=
        prepare_key column_name column_type_cardinality s.prepare_key_buffer },
    { start_offset := start_offset })

/-- Embeds `io::Write::write_all` for `ColumnSerializer`: forwards to the
counting writer. -/
def ColumnSerializer.write_all (s : ColumnarSerializer) (buf : List Nat) : ColumnarSerializer :=
  { s with wrt := s.wrt.write_all buf }

/-- Embeds `io::Write::flush` for `ColumnSerializer`: forwards to the
counting writer's flush. -/
def ColumnSerializer.flush (s : ColumnarSerializer) : ColumnarSerializer :=
  { s with wrt := s.wrt.flush }

/-- Embeds `Drop::drop` for `ColumnSerializer`: read the counter as the
end offset, insert `(key, start..end)` into the index builder, clear the
key buffer.  The `none` result is the fatal ordering-violation abort. -/
def ColumnSerializer.drop (cs : ColumnSerializer) (s : ColumnarSerializer) :
    Option ColumnarSerializer :=
  let end_offset := s.wrt.written_bytes
  let byte_range := (cs.start_offset, end_offset)
  match s.sstable_range.insert_cannot_fail s.prepare_key_buffer byte_range with
  | some b => some { s with sstable_range := b, prepare_key_buffer := [] }
  | none => none

/-- Little-endian encoding of a `u64` as 8 bytes, as produced by
`u64::to_le_bytes`. -/
def u64_to_le_bytes (n : Nat) : List Nat :=
  (List.range 8).map fun i => n / 256 ^ i % 256

/-- Little-endian decoding of a byte string. -/
def from_le_bytes (bs : List Nat) : Nat :=
  bs.foldr (fun b acc => acc * 256 + b) 0

/-- Embeds `ColumnarSerializer::finalize`: serialize the index builder
(`finish` is the external collaborator's serialization, §6: "appended
verbatim"), append those bytes, then append the 8-byte little-endian
length trailer.  Returns the final content of the wrapped sink. -/
def ColumnarSerializer.finalize (s : ColumnarSerializer)
    (finish : IndexBuilder → List Nat) : List Nat :=
  let sstable_bytes := finish s.sstable_range
  let sstable_num_bytes := sstable_bytes.length
  s.wrt.underlying ++ sstable_bytes ++ u64_to_le_bytes sstable_num_bytes

/-- A sequence of `write_all` calls through one column handle. -/
def writeChunks (s : ColumnarSerializer) (chunks : List (List Nat)) : ColumnarSerializer :=
  chunks.foldl ColumnSerializer.write_all s

/-- One operation issued through a column handle: a write or a flush. -/
inductive WOp where
  | write (buf : List Nat)
  | flush
deriving DecidableEq, Repr

def WOp.isWrite : WOp → Bool
  | .write _ => true
  | .flush => false

def applyOp (s : ColumnarSerializer) : WOp → ColumnarSerializer
  | .write buf => ColumnSerializer.write_all s buf
  | .flush => ColumnSerializer.flush s

def runOps (s : ColumnarSerializer) (ops : List WOp) : ColumnarSerializer :=
  ops.foldl applyOp s

/-- One column as driven by a caller: a name, a type/cardinality pair,
and the payload chunks written through the handle. -/
structure ColumnSpec where
  name : List Nat
  ctc : ColumnTypeAndCardinality
  chunks : List (List Nat)

/-- The caller loop: for each column, begin it, write its chunks, end
the handle; `none` when an ordering violation aborted. -/
def runColumns (s : ColumnarSerializer) : List ColumnSpec → Option ColumnarSerializer
  | [] => some s
  | c :: rest =>
    let p := s.serialize_column c.name c.ctc
    let s2 := writeChunks p.1 c.chunks
    match ColumnSerializer.drop p.2 s2 with
    | some s3 => runColumns s3 rest
    | none => none

/-- Modelled from the spec: "the known decode of `(name, code)`"
(spec §8) — strip the final code byte and the `0x00` separator before
it, decode the code byte back to the pair. -/
def decode_key (bs : List Nat) : Option (List Nat × ColumnTypeAndCardinality) :=
  if bs.length < 2 then none
  else if bs.getD (bs.length - 2) 1 ≠ 0 then none
  else
    match ColumnTypeAndCardinality.from_code (bs.getD (bs.length - 1) 0) with
    | some ctc => some (bs.take (bs.length - 2), ctc)
    | none => none

/-! ## Helper lemmas -/

theorem to_code_from_code (ctc : ColumnTypeAndCardinality) :
    ColumnTypeAndCardinality.from_code ctc.to_code = some ctc := by
  obtain ⟨t, c⟩ := ctc
  cases t <;> cases c <;> rfl

theorem prepare_key_eq (name : List Nat) (ctc : ColumnTypeAndCardinality)
    (buffer : List Nat) :
    prepare_key name ctc buffer = name ++ [0, ctc.to_code] := by
  simp [prepare_key]

theorem writeChunks_state (chunks : List (List Nat)) : ∀ s : ColumnarSerializer,
    (writeChunks s chunks).wrt.written_bytes
      = s.wrt.written_bytes + (chunks.map List.length).sum
    ∧ (writeChunks s chunks).sstable_range = s.sstable_range
    ∧ (writeChunks s chunks).prepare_key_buffer = s.prepare_key_buffer := by
  induction chunks with
  | nil => intro s; exact ⟨by simp [writeChunks], rfl, rfl⟩
  | cons c rest ih =>
    intro s
    obtain ⟨h1, h2, h3⟩ := ih (ColumnSerializer.write_all s c)
    refine ⟨?_, h2, h3⟩
    show (writeChunks (ColumnSerializer.write_all s c) rest).wrt.written_bytes = _
    rw [h1]
    show s.wrt.written_bytes + c.length + (rest.map List.length).sum = _
    simp [Nat.add_assoc]

theorem insert_cannot_fail_entries {b b2 : IndexBuilder} {key : List Nat} {r : Nat × Nat}
    (h : b.insert_cannot_fail key r = some b2) :
    b2.entries = b.entries ++ [(key, r)] := by
  unfold IndexBuilder.insert_cannot_fail at h
  cases hk : b.lastKey with
  | none =>
    rw [hk] at h
    rw [← Option.some.inj h]
  | some k =>
    rw [hk] at h
    have h2 : (if lexLt k key = true
          then some (⟨b.entries ++ [(key, r)]⟩ : IndexBuilder) else none)
        = some b2 := h
    cases hlt : lexLt k key with
    | true =>
      rw [hlt, if_pos rfl] at h2
      rw [← Option.some.inj h2]
    | false =>
      rw [hlt, if_neg Bool.false_ne_true] at h2
      cases h2

theorem insert_cannot_fail_none {b : IndexBuilder} {key : List Nat} {r : Nat × Nat}
    {k : List Nat} (hlast : b.lastKey = some k) (hle : lexLt k key = false) :
    b.insert_cannot_fail key r = none := by
  unfold IndexBuilder.insert_cannot_fail
  rw [hlast]
  simp [hle]

theorem drop_spec {cs : ColumnSerializer} {s s' : ColumnarSerializer}
    (h : ColumnSerializer.drop cs s = some s') :
    s'.sstable_range.entries
      = s.sstable_range.entries
        ++ [(s.prepare_key_buffer, (cs.start_offset, s.wrt.written_bytes))]
    ∧ s'.prepare_key_buffer = []
    ∧ s'.wrt = s.wrt := by
  simp only [ColumnSerializer.drop] at h
  cases hins : s.sstable_range.insert_cannot_fail s.prepare_key_buffer
      (cs.start_offset, s.wrt.written_bytes) with
  | none => rw [hins] at h; cases h
  | some b =>
    rw [hins] at h
    obtain rfl := Option.some.inj h
    exact ⟨insert_cannot_fail_entries hins, rfl, rfl⟩

/-- `chainFrom a l b` states that the ranges in `l` tile the interval
from `a` to `b` with no gap: each range starts exactly where the
previous one ended (the first at `a`), each start is at most its end,
and the last end is `b`. -/
def chainFrom (a : Nat) : List (Nat × Nat) → Nat → Bool
  | [], b => a == b
  | (x, y) :: rest, b => a == x && Nat.ble x y && chainFrom y rest b

theorem chainFrom_append {l : List (Nat × Nat)} : ∀ {a b c : Nat}, b ≤ c →
    chainFrom a l b = true → chainFrom a (l ++ [(b, c)]) c = true := by
  induction l with
  | nil =>
    intro a b c hbc h
    simp only [chainFrom, beq_iff_eq] at h
    simp only [List.nil_append, chainFrom, Bool.and_eq_true, beq_iff_eq, Nat.ble_eq]
    exact ⟨⟨h, hbc⟩, trivial⟩
  | cons p rest ih =>
    obtain ⟨x, y⟩ := p
    intro a b c hbc h
    simp only [chainFrom, Bool.and_eq_true, beq_iff_eq, Nat.ble_eq] at h
    simp only [List.cons_append, chainFrom, Bool.and_eq_true, beq_iff_eq, Nat.ble_eq]
    exact ⟨h.1, ih hbc h.2⟩

theorem chainFrom_le_end {l : List (Nat × Nat)} : ∀ {a b : Nat},
    chainFrom a l b = true → a ≤ b := by
  induction l with
  | nil =>
    intro a b h
    simp only [chainFrom, beq_iff_eq] at h
    omega
  | cons p rest ih =>
    obtain ⟨x, y⟩ := p
    intro a b h
    simp only [chainFrom, Bool.and_eq_true, beq_iff_eq, Nat.ble_eq] at h
    obtain ⟨⟨hax, hxy⟩, hrest⟩ := h
    have := ih hrest
    omega

theorem chainFrom_bounds {l : List (Nat × Nat)} : ∀ {a b : Nat},
    chainFrom a l b = true → ∀ r ∈ l, a ≤ r.1 ∧ r.2 ≤ b := by
  induction l with
  | nil => intro a b _ r hr; cases hr
  | cons p rest ih =>
    obtain ⟨x, y⟩ := p
    intro a b h r hr
    simp only [chainFrom, Bool.and_eq_true, beq_iff_eq, Nat.ble_eq] at h
    obtain ⟨⟨hax, hxy⟩, hrest⟩ := h
    cases hr with
    | head =>
      exact ⟨by omega, chainFrom_le_end hrest⟩
    | tail _ hr2 =>
      obtain ⟨h1, h2⟩ := ih hrest r hr2
      exact ⟨by omega, h2⟩

theorem chainFrom_pairwise {l : List (Nat × Nat)} : ∀ {a b : Nat},
    chainFrom a l b = true →
    l.Pairwise (fun r1 r2 => r1.2 ≤ r2.1) := by
  induction l with
  | nil => intro a b _; exact List.Pairwise.nil
  | cons p rest ih =>
    obtain ⟨x, y⟩ := p
    intro a b h
    simp only [chainFrom, Bool.and_eq_true, beq_iff_eq, Nat.ble_eq] at h
    obtain ⟨⟨hax, hxy⟩, hrest⟩ := h
    refine List.Pairwise.cons ?_ (ih hrest)
    intro r hr
    have := (chainFrom_bounds hrest r hr).1
    show y ≤ r.1
    omega

theorem runColumns_chain (cols : List ColumnSpec) :
    ∀ (s sF : ColumnarSerializer) (a : Nat),
    runColumns s cols = some sF →
    chainFrom a (s.sstable_range.entries.map Prod.snd) s.wrt.written_bytes = true →
    chainFrom a (sF.sstable_range.entries.map Prod.snd) sF.wrt.written_bytes = true := by
  induction cols with
  | nil =>
    intro s sF a h hc
    obtain rfl := Option.some.inj h
    exact hc
  | cons c rest ih =>
    intro s sF a h hc
    simp only [runColumns] at h
    cases hd : ColumnSerializer.drop (s.serialize_column c.name c.ctc).2
        (writeChunks (s.serialize_column c.name c.ctc).1 c.chunks) with
    | none => rw [hd] at h; cases h
    | some s3 =>
      rw [hd] at h
      apply ih s3 sF a h
      obtain ⟨he, _, hw⟩ := drop_spec hd
      obtain ⟨hwb, hsst, _⟩ := writeChunks_state c.chunks (s.serialize_column c.name c.ctc).1
      have hmap : s3.sstable_range.entries.map Prod.snd
          = s.sstable_range.entries.map Prod.snd
            ++ [(s.wrt.written_bytes,
                s.wrt.written_bytes + (c.chunks.map List.length).sum)] := by
        rw [he, hsst, hwb]
        simp
        rfl
      have hw3 : s3.wrt.written_bytes
          = s.wrt.written_bytes + (c.chunks.map List.length).sum := by
        rw [hw, hwb]
        rfl
      rw [hmap, hw3]
      exact chainFrom_append (Nat.le_add_right _ _) hc

theorem from_le_bytes_u64 (n : Nat) (h : n < 2 ^ 64) :
    from_le_bytes (u64_to_le_bytes n) = n := by
  unfold u64_to_le_bytes from_le_bytes
  norm_num [List.range_succ]
  omega

/-! ## Claim theorems -/

/-- C5: for every column name and every `ColumnTypeAndCardinality`, the
encoded key is the name bytes, then a single `0x00`, then the pair's
one-byte code, so its length is `name.length + 2`; the result does not
depend on the previous contents of the reused buffer. -/
theorem prepare_key_layout (name : List Nat) (ctc : ColumnTypeAndCardinality)
    (buffer buffer2 : List Nat) :
    prepare_key name ctc buffer = name ++ [0, ctc.to_code]
    ∧ (prepare_key name ctc buffer).length = name.length + 2
    ∧ prepare_key name ctc buffer = prepare_key name ctc buffer2
    ∧ ctc.to_code < 256 := by
  obtain ⟨t, c⟩ := ctc
  refine ⟨prepare_key_eq .., ?_, rfl, ?_⟩
  · simp [prepare_key_eq]
  · cases t <;> cases c <;> decide

/-- C6: key encoding round-trips: decoding (strip the final code byte
and the `0x00` separator before it, decode the code) recovers the name
and the `(type, cardinality)` pair; encoding is deterministic and takes
nothing from the reused buffer. -/
theorem prepare_key_roundtrip (name : List Nat) (ctc : ColumnTypeAndCardinality)
    (buffer buffer2 : List Nat) :
    decode_key (prepare_key name ctc buffer) = some (name, ctc)
    ∧ prepare_key name ctc buffer = prepare_key name ctc buffer2 := by
  refine ⟨?_, rfl⟩
  rw [prepare_key_eq]
  have hlen : (name ++ [0, ctc.to_code]).length = name.length + 2 := by simp
  have hsep : (name ++ [0, ctc.to_code]).getD name.length 1 = 0 := by
    rw [List.getD_eq_getElem?_getD, List.getElem?_append_right (Nat.le_refl _)]
    simp
  have hcode : (name ++ [0, ctc.to_code]).getD (name.length + 1) 0 = ctc.to_code := by
    rw [List.getD_eq_getElem?_getD, List.getElem?_append_right (by omega)]
    simp
  have htake : (name ++ [0, ctc.to_code]).take name.length = name := by
    simp
  rw [decode_key, hlen]
  simp only [Nat.add_sub_cancel, Nat.add_sub_cancel_left]
  rw [if_neg (by omega)]
  rw [if_neg (fun h => h hsep)]
  rw [show name.length + 2 - 1 = name.length + 1 by omega, hcode,
    to_code_from_code, htake]

/-- C1: for any chunking of writes (including none), the recorded span
starts at the counter value at the `serialize_column` call, ends at the
counter value when the recorder ends, and so has length equal to the
exact total number of bytes written through the recorder;
`serialize_column` itself writes no bytes. -/
theorem serialize_column_records_exact_span (s s3 : ColumnarSerializer)
    (name : List Nat) (ctc : ColumnTypeAndCardinality) (chunks : List (List Nat))
    (h : ColumnSerializer.drop (s.serialize_column name ctc).2
        (writeChunks (s.serialize_column name ctc).1 chunks) = some s3) :
    (s.serialize_column name ctc).2.start_offset = s.wrt.written_bytes
    ∧ (s.serialize_column name ctc).1.wrt = s.wrt
    ∧ s3.sstable_range.entries
      = s.sstable_range.entries
        ++ [(prepare_key name ctc s.prepare_key_buffer,
            (s.wrt.written_bytes,
              s.wrt.written_bytes + (chunks.map List.length).sum))] := by
  obtain ⟨hwb, hsst, hbuf⟩ := writeChunks_state chunks (s.serialize_column name ctc).1
  obtain ⟨he, _, _⟩ := drop_spec h
  refine ⟨rfl, rfl, ?_⟩
  rw [he, hsst, hbuf, hwb]
  rfl

/-- C1 witness: one column of two chunks (2 then 1 bytes) on a fresh
writer is recorded as the span `(0, 3)`. -/
theorem serialize_column_records_exact_span_witness :
    ColumnSerializer.drop
        ((ColumnarSerializer.new []).serialize_column [97] ⟨.Bytes, .Required⟩).2
        (writeChunks
          ((ColumnarSerializer.new []).serialize_column [97] ⟨.Bytes, .Required⟩).1
          [[1, 2], [3]])
      = some ⟨⟨[1, 2, 3], 3⟩, ⟨[([97, 0, 0], (0, 3))]⟩, []⟩
    ∧ (((ColumnarSerializer.new []).serialize_column [97]
          ⟨.Bytes, .Required⟩).2.start_offset
        = (ColumnarSerializer.new []).wrt.written_bytes
      ∧ ((ColumnarSerializer.new []).serialize_column [97]
          ⟨.Bytes, .Required⟩).1.wrt = (ColumnarSerializer.new []).wrt
      ∧ (⟨⟨[1, 2, 3], 3⟩, ⟨[([97, 0, 0], (0, 3))]⟩, []⟩
            : ColumnarSerializer).sstable_range.entries
        = (ColumnarSerializer.new []).sstable_range.entries
          ++ [(prepare_key [97] ⟨.Bytes, .Required⟩
                (ColumnarSerializer.new []).prepare_key_buffer,
              ((ColumnarSerializer.new []).wrt.written_bytes,
                (ColumnarSerializer.new []).wrt.written_bytes
                  + ([[1, 2], [3]].map List.length).sum))]) :=
  ⟨by decide,
    serialize_column_records_exact_span (ColumnarSerializer.new [])
      ⟨⟨[1, 2, 3], 3⟩, ⟨[([97, 0, 0], (0, 3))]⟩, []⟩ [97] ⟨.Bytes, .Required⟩
      [[1, 2], [3]] (by decide)⟩

/-- C2: `finalize` appends exactly the serialized index bytes and then
an 8-byte little-endian trailer holding their exact length, and nothing
else; decoding the trailer recovers that length. -/
theorem finalize_appends_index_and_le_trailer (s : ColumnarSerializer)
    (finish : IndexBuilder → List Nat)
    (h : (finish s.sstable_range).length < 2 ^ 64) :
    s.finalize finish
      = s.wrt.underlying ++ finish s.sstable_range
          ++ u64_to_le_bytes (finish s.sstable_range).length
    ∧ (u64_to_le_bytes (finish s.sstable_range).length).length = 8
    ∧ from_le_bytes (u64_to_le_bytes (finish s.sstable_range).length)
      = (finish s.sstable_range).length :=
  ⟨rfl, by simp [u64_to_le_bytes], from_le_bytes_u64 _ h⟩

/-- C2 witness: a two-byte index on a fresh writer is followed by the
trailer `02 00 00 00 00 00 00 00`. -/
theorem finalize_appends_index_and_le_trailer_witness :
    ((fun _ : IndexBuilder => [5, 6])
        (ColumnarSerializer.new [7]).sstable_range).length < 2 ^ 64
    ∧ ((ColumnarSerializer.new [7]).finalize (fun _ => [5, 6])
        = (ColumnarSerializer.new [7]).wrt.underlying
          ++ (fun _ : IndexBuilder => [5, 6]) (ColumnarSerializer.new [7]).sstable_range
          ++ u64_to_le_bytes ((fun _ : IndexBuilder => [5, 6])
              (ColumnarSerializer.new [7]).sstable_range).length
      ∧ (u64_to_le_bytes ((fun _ : IndexBuilder => [5, 6])
            (ColumnarSerializer.new [7]).sstable_range).length).length = 8
      ∧ from_le_bytes (u64_to_le_bytes ((fun _ : IndexBuilder => [5, 6])
            (ColumnarSerializer.new [7]).sstable_range).length)
        = ((fun _ : IndexBuilder => [5, 6])
            (ColumnarSerializer.new [7]).sstable_range).length) :=
  ⟨by decide,
    finalize_appends_index_and_le_trailer (ColumnarSerializer.new [7])
      (fun _ => [5, 6]) (by decide)⟩

/-- C3: on one writer, the recorded ranges tile the payload region with
no gap and no padding: `chainFrom` forces each recorded range to start
exactly at the end offset of the previous recorded range (the first at
offset `0`), so for consecutive columns A then B, A's end equals B's
start; moreover no two recorded ranges overlap. -/
theorem columns_contiguous_non_overlapping (w : List Nat) (cols : List ColumnSpec)
    (sF : ColumnarSerializer)
    (h : runColumns (ColumnarSerializer.new w) cols = some sF) :
    chainFrom 0 (sF.sstable_range.entries.map Prod.snd) sF.wrt.written_bytes = true
    ∧ (sF.sstable_range.entries.map Prod.snd).Pairwise
        (fun r1 r2 => r1.2 ≤ r2.1) := by
  have hc := runColumns_chain cols (ColumnarSerializer.new w) sF 0 h rfl
  exact ⟨hc, chainFrom_pairwise hc⟩

/-- C3 witness: columns `a` (4 bytes), `b` (0 bytes), `c` (10 bytes)
yield the contiguous, non-overlapping ranges `(0,4)`, `(4,4)`,
`(4,14)`. -/
theorem columns_contiguous_non_overlapping_witness :
    runColumns (ColumnarSerializer.new [])
        [⟨[97], ⟨.Bytes, .Required⟩, [[1, 2, 3, 4]]⟩,
          ⟨[98], ⟨.Bytes, .Required⟩, []⟩,
          ⟨[99], ⟨.Bytes, .Required⟩, [[5, 5, 5, 5, 5], [6, 6, 6, 6, 6]]⟩]
      = some ⟨⟨[1, 2, 3, 4, 5, 5, 5, 5, 5, 6, 6, 6, 6, 6], 14⟩,
          ⟨[([97, 0, 0], (0, 4)), ([98, 0, 0], (4, 4)), ([99, 0, 0], (4, 14))]⟩, []⟩
    ∧ (chainFrom 0
          ((⟨⟨[1, 2, 3, 4, 5, 5, 5, 5, 5, 6, 6, 6, 6, 6], 14⟩,
              ⟨[([97, 0, 0], (0, 4)), ([98, 0, 0], (4, 4)),
                ([99, 0, 0], (4, 14))]⟩, []⟩
            : ColumnarSerializer).sstable_range.entries.map Prod.snd)
          (⟨⟨[1, 2, 3, 4, 5, 5, 5, 5, 5, 6, 6, 6, 6, 6], 14⟩,
              ⟨[([97, 0, 0], (0, 4)), ([98, 0, 0], (4, 4)),
                ([99, 0, 0], (4, 14))]⟩, []⟩
            : ColumnarSerializer).wrt.written_bytes = true
      ∧ ((⟨⟨[1, 2, 3, 4, 5, 5, 5, 5, 5, 6, 6, 6, 6, 6], 14⟩,
              ⟨[([97, 0, 0], (0, 4)), ([98, 0, 0], (4, 4)),
                ([99, 0, 0], (4, 14))]⟩, []⟩
            : ColumnarSerializer).sstable_range.entries.map Prod.snd).Pairwise
          (fun r1 r2 => r1.2 ≤ r2.1)) :=
  ⟨by decide,
    columns_contiguous_non_overlapping []
      [⟨[97], ⟨.Bytes, .Required⟩, [[1, 2, 3, 4]]⟩,
        ⟨[98], ⟨.Bytes, .Required⟩, []⟩,
        ⟨[99], ⟨.Bytes, .Required⟩, [[5, 5, 5, 5, 5], [6, 6, 6, 6, 6]]⟩]
      ⟨⟨[1, 2, 3, 4, 5, 5, 5, 5, 5, 6, 6, 6, 6, 6], 14⟩,
        ⟨[([97, 0, 0], (0, 4)), ([98, 0, 0], (4, 4)), ([99, 0, 0], (4, 14))]⟩, []⟩
      (by decide)⟩

/-- C4: ending a column whose encoded key is lexicographically less
than or equal to the previously registered key takes the fatal
ordering-violation path (`none`, the modelled abort), never a silent
insert and never a recoverable error value. -/
theorem nonincreasing_key_drop_is_fatal (s : ColumnarSerializer) (k name : List Nat)
    (ctc : ColumnTypeAndCardinality) (chunks : List (List Nat))
    (hlast : s.sstable_range.lastKey = some k)
    (hle : lexLt k (prepare_key name ctc s.prepare_key_buffer) = false) :
    ColumnSerializer.drop (s.serialize_column name ctc).2
      (writeChunks (s.serialize_column name ctc).1 chunks) = none := by
  obtain ⟨hwb, hsst, hbuf⟩ := writeChunks_state chunks (s.serialize_column name ctc).1
  have h1 : (writeChunks (s.serialize_column name ctc).1 chunks).sstable_range
      = s.sstable_range := hsst
  have h2 : (writeChunks (s.serialize_column name ctc).1 chunks).prepare_key_buffer
      = prepare_key name ctc s.prepare_key_buffer := hbuf
  simp only [ColumnSerializer.drop]
  rw [h1, h2, insert_cannot_fail_none hlast hle]

/-- C4 witness: after registering key `b\0k`, ending a column keyed
`a\0k` aborts. -/
theorem nonincreasing_key_drop_is_fatal_witness :
    (⟨⟨[9, 9], 2⟩, ⟨[([98, 0, 0], (0, 2))]⟩, []⟩
        : ColumnarSerializer).sstable_range.lastKey = some [98, 0, 0]
    ∧ lexLt [98, 0, 0]
        (prepare_key [97] ⟨.Bytes, .Required⟩
          (⟨⟨[9, 9], 2⟩, ⟨[([98, 0, 0], (0, 2))]⟩, []⟩
            : ColumnarSerializer).prepare_key_buffer) = false
    ∧ ColumnSerializer.drop
        ((⟨⟨[9, 9], 2⟩, ⟨[([98, 0, 0], (0, 2))]⟩, []⟩
            : ColumnarSerializer).serialize_column [97] ⟨.Bytes, .Required⟩).2
        (writeChunks
          ((⟨⟨[9, 9], 2⟩, ⟨[([98, 0, 0], (0, 2))]⟩, []⟩
              : ColumnarSerializer).serialize_column [97] ⟨.Bytes, .Required⟩).1
          [[1]]) = none :=
  ⟨by decide, by decide,
    nonincreasing_key_drop_is_fatal
      ⟨⟨[9, 9], 2⟩, ⟨[([98, 0, 0], (0, 2))]⟩, []⟩ [98, 0, 0] [97]
      ⟨.Bytes, .Required⟩ [[1]] (by decide) (by decide)⟩

/-- C7 counterexample: the name `root\0child`, which contains the
reserved `0x00` separator byte, is not rejected on the write path:
`prepare_key` encodes it verbatim (exactly what the repository's own
`test_prepare_key_bytes` asserts), and `serialize_column` accepts it,
installing the verbatim key in the reused buffer. -/
theorem name_with_separator_accepted_cex :
    prepare_key [114, 111, 111, 116, 0, 99, 104, 105, 108, 100]
        ⟨.Bytes, .Optional⟩ [115, 111, 109, 101]
      = [114, 111, 111, 116, 0, 99, 104, 105, 108, 100, 0,
          ColumnTypeAndCardinality.to_code ⟨.Bytes, .Optional⟩]
    ∧ ((ColumnarSerializer.new []).serialize_column
          [114, 111, 111, 116, 0, 99, 104, 105, 108, 100]
          ⟨.Bytes, .Optional⟩).1.prepare_key_buffer
      = [114, 111, 111, 116, 0, 99, 104, 105, 108, 100, 0,
          ColumnTypeAndCardinality.to_code ⟨.Bytes, .Optional⟩] :=
  ⟨by decide, by decide⟩

/-- C7 amended: a column name containing the reserved `0x00` separator
byte is not rejected and not truncated: it is accepted and embedded
verbatim in the encoded key; no precondition is enforced anywhere on
the write path (the repository's own test exercises such a name). -/
theorem name_with_separator_encoded_verbatim (name : List Nat)
    (ctc : ColumnTypeAndCardinality) (buffer : List Nat) (_h : 0 ∈ name) :
    prepare_key name ctc buffer = name ++ [0, ctc.to_code] :=
  prepare_key_eq name ctc buffer

/-- C7 amended witness: the name `root\0child` contains `0x00` and is
encoded verbatim. -/
theorem name_with_separator_encoded_verbatim_witness :
    (0 : Nat) ∈ [114, 111, 111, 116, 0, 99, 104, 105, 108, 100]
    ∧ prepare_key [114, 111, 111, 116, 0, 99, 104, 105, 108, 100]
        ⟨.Bytes, .Optional⟩ []
      = [114, 111, 111, 116, 0, 99, 104, 105, 108, 100]
        ++ [0, ColumnTypeAndCardinality.to_code ⟨.Bytes, .Optional⟩] :=
  ⟨by decide,
    name_with_separator_encoded_verbatim
      [114, 111, 111, 116, 0, 99, 104, 105, 108, 100]
      ⟨.Bytes, .Optional⟩ [] (by decide)⟩

/-- C8: the end-of-life step of a recorder inserts exactly one
`(key, start..end)` entry into the index builder, clears the reusable
key buffer, and leaves the stream untouched; its result type carries no
recoverable error (the `none` branch is the fatal abort, not an error
value). -/
theorem drop_registers_span_exactly_once (cs : ColumnSerializer)
    (s s' : ColumnarSerializer) (h : ColumnSerializer.drop cs s = some s') :
    s'.sstable_range.entries
      = s.sstable_range.entries
        ++ [(s.prepare_key_buffer, (cs.start_offset, s.wrt.written_bytes))]
    ∧ s'.prepare_key_buffer = []
    ∧ s'.wrt = s.wrt :=
  drop_spec h

/-- C8 witness: dropping a recorder started at offset `0` after one
byte was written registers `(0, 1)` under the buffered key and clears
the buffer. -/
theorem drop_registers_span_exactly_once_witness :
    ColumnSerializer.drop ⟨0⟩ ⟨⟨[1], 1⟩, ⟨[]⟩, [97, 0, 0]⟩
      = some ⟨⟨[1], 1⟩, ⟨[([97, 0, 0], (0, 1))]⟩, []⟩
    ∧ ((⟨⟨[1], 1⟩, ⟨[([97, 0, 0], (0, 1))]⟩, []⟩
          : ColumnarSerializer).sstable_range.entries
        = (⟨⟨[1], 1⟩, ⟨[]⟩, [97, 0, 0]⟩ : ColumnarSerializer).sstable_range.entries
          ++ [((⟨⟨[1], 1⟩, ⟨[]⟩, [97, 0, 0]⟩
                : ColumnarSerializer).prepare_key_buffer,
              ((⟨0⟩ : ColumnSerializer).start_offset,
                (⟨⟨[1], 1⟩, ⟨[]⟩, [97, 0, 0]⟩
                  : ColumnarSerializer).wrt.written_bytes))]
      ∧ (⟨⟨[1], 1⟩, ⟨[([97, 0, 0], (0, 1))]⟩, []⟩
          : ColumnarSerializer).prepare_key_buffer = []
      ∧ (⟨⟨[1], 1⟩, ⟨[([97, 0, 0], (0, 1))]⟩, []⟩ : ColumnarSerializer).wrt
        = (⟨⟨[1], 1⟩, ⟨[]⟩, [97, 0, 0]⟩ : ColumnarSerializer).wrt) :=
  ⟨by decide,
    drop_registers_span_exactly_once ⟨0⟩ ⟨⟨[1], 1⟩, ⟨[]⟩, [97, 0, 0]⟩
      ⟨⟨[1], 1⟩, ⟨[([97, 0, 0], (0, 1))]⟩, []⟩ (by decide)⟩

/-- C9: a freshly constructed `ColumnarSerializer` has a
total-bytes-written counter of zero, so the first column begun on it is
recorded with start offset `0`, whatever the wrapped sink held before. -/
theorem new_writer_counter_zero (w : List Nat) (name : List Nat)
    (ctc : ColumnTypeAndCardinality) :
    (ColumnarSerializer.new w).wrt.written_bytes = 0
    ∧ ((ColumnarSerializer.new w).serialize_column name ctc).2.start_offset = 0 :=
  ⟨rfl, rfl⟩

theorem runOps_filter_writes (ops : List WOp) : ∀ s : ColumnarSerializer,
    runOps s ops = runOps s (ops.filter WOp.isWrite) := by
  induction ops with
  | nil => intro s; rfl
  | cons op rest ih =>
    intro s
    cases op with
    | write buf =>
      show runOps (ColumnSerializer.write_all s buf) rest = _
      rw [show (WOp.write buf :: rest).filter WOp.isWrite
          = WOp.write buf :: rest.filter WOp.isWrite from rfl]
      exact ih (ColumnSerializer.write_all s buf)
    | flush =>
      show runOps (ColumnSerializer.flush s) rest = _
      rw [show (WOp.flush :: rest).filter WOp.isWrite = rest.filter WOp.isWrite from rfl]
      rw [show ColumnSerializer.flush s = s from rfl]
      exact ih s

/-- C10: flushing a column handle, anywhere and any number of times,
changes neither the counting writer nor any other serializer state, so
it can never move the start or end offset of any recorded byte range:
any operation sequence is equivalent to the same sequence with the
flushes removed. -/
theorem flush_preserves_counter_and_spans (s : ColumnarSerializer) (ops : List WOp) :
    ColumnSerializer.flush s = s
    ∧ (ColumnSerializer.flush s).wrt.written_bytes = s.wrt.written_bytes
    ∧ runOps s ops = runOps s (ops.filter WOp.isWrite) :=
  ⟨rfl, rfl, runOps_filter_writes ops s⟩

end TantivyColumnar
